import Mathlib

deriving instance DecidableEq for Except

/-!
Verification development for the LabourUnrestClassifier crawl/extraction
pipeline (source files scrapper_902gr.py and codex_labeler.py).

The Python source is shallowly embedded: Python strings are Lean `String`
values (lists of unicode code points), Python `datetime` values at minute
precision are the `DateTime` structure below, sets are duplicate-free lists,
exceptions are `Except`, and the crawl loop is a fuel-indexed recursion whose
`none` result marks an incomplete run.  The regular expression
`\b(\d{2}/\d{2}/\d{4})\s*-\s*(\d{2}:\d{2})\b` and `str.strip` are modelled
over the ASCII fragment that the code relies on: word characters are ASCII
alphanumerics and underscore, whitespace is `Char.isWhitespace`.
-/

namespace LUC

/-! ## Generic helpers for Python primitives -/

/-- Python slice `l[a:b]` on lists (as used with non-negative clipped bounds). -/
def pySlice {α : Type} (l : List α) (a b : Nat) : List α :=
  (l.take b).drop a

/-- Python `set.add`: duplicate-free insertion, order immaterial. -/
def insertStr (u : String) (l : List String) : List String :=
  if u ∈ l then l else l ++ [u]

/-- Deduplication scan: `seen` holds the elements already kept. -/
def dedupFirstAux : List String → List String → List String
  | _, [] => []
  | seen, x :: xs =>
    if x ∈ seen then dedupFirstAux seen xs
    else x :: dedupFirstAux (x :: seen) xs

/-- Python set construction / `dict.fromkeys`: deduplicate keeping the first
occurrence of each element. -/
def dedupFirst (l : List String) : List String :=
  dedupFirstAux [] l

/-- Python `list.index`: index of the first occurrence (meaningful when the
element is present). -/
def firstIdx : List String → String → Nat
  | [], _ => 0
  | s :: rest, t => if s = t then 0 else firstIdx rest t + 1

/-- Python `"\n".join(out)`. -/
def joinNl : List String → String
  | [] => ""
  | [s] => s
  | s :: rest => s ++ "\n" ++ joinNl rest

/-- Python `s[:n]` on strings: the first `n` code points. -/
def pyTake (s : String) (n : Nat) : String :=
  String.mk (s.data.take n)

/-- Python `s[:-n]` on strings (for `n` at most the length). -/
def strDropRight (s : String) (n : Nat) : String :=
  String.mk (s.data.take (s.data.length - n))

/-- Python `str.strip` on the character list: drop whitespace from both ends. -/
def stripChars (l : List Char) : List Char :=
  ((l.dropWhile Char.isWhitespace).reverse.dropWhile Char.isWhitespace).reverse

/-- Python `str.strip`. -/
def pyStrip (s : String) : String :=
  String.mk (stripChars s.data)

/-! ## The timestamp regular expression

`DT_RE = \b(\d{2}/\d{2}/\d{4})\s*-\s*(\d{2}:\d{2})\b` with `re.search`
leftmost-match semantics.  `tryMatchHere` attempts a match anchored at the
current position and returns the two capture groups; `dtSearch` scans the
string left to right, tracking the previous character for the leading word
boundary (the first matched character is a digit, so the boundary holds
exactly when the previous character is absent or not a word character). -/

/-- Word characters of the regex `\b`, over the ASCII fragment. -/
def isWordChar (c : Char) : Bool :=
  c.isAlphanum || c = '_'

/-- Consume exactly `n` decimal digits. -/
def takeDigits : Nat → List Char → Option (List Char × List Char)
  | 0, l => some ([], l)
  | _ + 1, [] => none
  | n + 1, c :: l =>
    if c.isDigit then
      match takeDigits n l with
      | some (d, r) => some (c :: d, r)
      | none => none
    else none

/-- Consume one expected literal character. -/
def expectChar (ch : Char) : List Char → Option (List Char)
  | [] => none
  | c :: l => if c = ch then some l else none

/-- Greedy `\s*`: the following literal is `-`, which is not whitespace, so the
greedy run is equivalent to dropping all leading whitespace. -/
def skipWs (l : List Char) : List Char :=
  l.dropWhile Char.isWhitespace

/-- Attempt the timestamp pattern at the current position; on success return
capture group 1 (`\d{2}/\d{2}/\d{4}`) and group 2 (`\d{2}:\d{2}`). -/
def tryMatchHere (l : List Char) : Option (List Char × List Char) :=
  match takeDigits 2 l with
  | none => none
  | some (d1, l) =>
  match expectChar ('/') l with
  | none => none
  | some l =>
  match takeDigits 2 l with
  | none => none
  | some (d2, l) =>
  match expectChar ('/') l with
  | none => none
  | some l =>
  match takeDigits 4 l with
  | none => none
  | some (d3, l) =>
  match expectChar ('-') (skipWs l) with
  | none => none
  | some l =>
  match takeDigits 2 (skipWs l) with
  | none => none
  | some (t1, l) =>
  match expectChar (':') l with
  | none => none
  | some l =>
  match takeDigits 2 l with
  | none => none
  | some (t2, l) =>
    let g1 := d1 ++ ('/') :: d2 ++ ('/') :: d3
    let g2 := t1 ++ (':') :: t2
    match l with
    | [] => some (g1, g2)
    | c :: _ => if isWordChar c then none else some (g1, g2)

/-- Scan left to right; `prev` is the character before the current position. -/
def dtSearchAux : Option Char → List Char → Option (List Char × List Char)
  | _, [] => none
  | prev, c :: rest =>
    let boundary := match prev with
      | none => true
      | some p => !(isWordChar p)
    match (if boundary then tryMatchHere (c :: rest) else none) with
    | some g => some g
    | none => dtSearchAux (some c) rest

/-- `DT_RE.search(s)`: the leftmost match of the timestamp pattern, as its two
capture groups, or `none`. -/
def dtSearch (s : String) : Option (List Char × List Char) :=
  dtSearchAux none s.data

/-- First string of the list on which `DT_RE.search` succeeds, with its match
(the shape of the loops `for s in window` and `for s in strings`). -/
def searchList : List String → Option (List Char × List Char)
  | [] => none
  | s :: rest =>
    match dtSearch s with
    | some g => some g
    | none => searchList rest

/-! ## Datetimes at minute precision -/

/-- A Python `datetime` restricted to minute precision (the pipeline only ever
constructs second-free datetimes and serialises with `timespec="minutes"`). -/
structure DateTime where
  year : Nat
  month : Nat
  day : Nat
  hour : Nat
  minute : Nat
deriving DecidableEq

/-- Python datetime `<=`: lexicographic on the field tuple. -/
def DateTime.leB (a b : DateTime) : Bool :=
  if a.year ≠ b.year then decide (a.year < b.year)
  else if a.month ≠ b.month then decide (a.month < b.month)
  else if a.day ≠ b.day then decide (a.day < b.day)
  else if a.hour ≠ b.hour then decide (a.hour < b.hour)
  else decide (a.minute ≤ b.minute)

/-- Python datetime `<` (for a total order, `a < b` iff not `b <= a`). -/
def DateTime.ltB (a b : DateTime) : Bool :=
  !(DateTime.leB b a)

/-- Python `min(a, b)`: returns `b` exactly when `b < a`. -/
def pymin (a b : DateTime) : DateTime :=
  if DateTime.ltB b a then b else a

/-- Numeric value of a digit list. -/
def digitsToNat (l : List Char) : Nat :=
  l.foldl (fun n c => n * 10 + (c.toNat - 48)) 0

def isLeapYear (y : Nat) : Bool :=
  (y % 4 = 0 && !(y % 100 = 0)) || y % 400 = 0

def daysInMonth (y m : Nat) : Nat :=
  if m = 1 ∨ m = 3 ∨ m = 5 ∨ m = 7 ∨ m = 8 ∨ m = 10 ∨ m = 12 then 31
  else if m = 2 then (if isLeapYear y then 29 else 28)
  else 30

/-- `datetime.strptime(g1 + " " + g2, "%d/%m/%Y %H:%M")` applied to the two
capture groups (which the regex guarantees to have shapes `dd/dd/dddd` and
`dd:dd`); `none` models the `ValueError` raised on out-of-range fields. -/
def strptimeDMYHM (g1 g2 : List Char) : Option DateTime :=
  match g1, g2 with
  | [a1, a2, _, b1, b2, _, c1, c2, c3, c4], [h1, h2, _, m1, m2] =>
    let d := digitsToNat [a1, a2]
    let mo := digitsToNat [b1, b2]
    let y := digitsToNat [c1, c2, c3, c4]
    let h := digitsToNat [h1, h2]
    let mi := digitsToNat [m1, m2]
    if 1 ≤ y ∧ 1 ≤ mo ∧ mo ≤ 12 ∧ 1 ≤ d ∧ d ≤ daysInMonth y mo ∧ h ≤ 23 ∧ mi ≤ 59 then
      some ⟨y, mo, d, h, mi⟩
    else none
  | _, _ => none

/-- `return datetime.strptime(...)` inside the search loops: a successful parse
returns the datetime, an out-of-range match raises (propagates as `.error`). -/
def parseOrError (g : List Char × List Char) : Except Unit (Option DateTime) :=
  match strptimeDMYHM g.1 g.2 with
  | some dt => .ok (some dt)
  | none => .error ()

/-! ## Extraction heuristics (scrapper_902gr.py) -/

def STOP_MARKERS : List String :=
  [("Δες ακόμα"), ("ΡΟΗ ΕΙΔΗΣΕΩΝ"), ("Αναζήτηση"), ("ΠΕΡΙΣΣΟΤΕΡΑ")]

def NOISE_STRINGS : List String :=
  [("Facebook logo"), ("Twitter logo"), ("Print Mail logo"),
   ("Print HTML logo"), ("Print PDF logo")]

def siteSuffix : String := "| 902.gr"

/-- `normalize_title`: `None`/empty stays `None`; otherwise strip, and when the
stripped title ends with the site suffix, remove it and strip again. -/
def normalize_title : Option String → Option String
  | none => none
  | some s =>
    if s = "" then none
    else
      let s1 := pyStrip s
      if List.isSuffixOf siteSuffix.data s1.data then
        some (pyStrip (strDropRight s1 siteSuffix.data.length))
      else some s1

/-- The window searched around anchor index `i`:
`strings[max(0, i - 15) : min(len(strings), i + 15)]` (natural-number
subtraction clips at 0 exactly as `max(0, i - 15)` does). -/
def windowSearchAt (strings : List String) (i : Nat) : Option (List Char × List Char) :=
  searchList (pySlice strings (i - 15) (min strings.length (i + 15)))

/-- Shared tail of `pick_published_at`: parse a window match if there is one,
otherwise fall back to scanning the full sequence. -/
def pickFrom (w : Option (List Char × List Char)) (strings : List String) :
    Except Unit (Option DateTime) :=
  match w with
  | some g => parseOrError g
  | none =>
    match searchList strings with
    | some g => parseOrError g
    | none => .ok none

/-- `pick_published_at` specialised to an explicit anchor index. -/
def pickAt (strings : List String) (i : Nat) : Except Unit (Option DateTime) :=
  pickFrom (windowSearchAt strings i) strings

/-- `pick_published_at(strings, title)`. -/
def pick_published_at (strings : List String) (title : Option String) :
    Except Unit (Option DateTime) :=
  match title with
  | some t =>
    if ¬ t = "" ∧ t ∈ strings then pickAt strings (firstIdx strings t)
    else pickFrom none strings
  | none => pickFrom none strings

/-- The body accumulation loop: stop at a stop marker, skip noise strings. -/
def takeBody : List String → List String
  | [] => []
  | s :: rest =>
    if s ∈ STOP_MARKERS then []
    else if s ∈ NOISE_STRINGS then takeBody rest
    else s :: takeBody rest

/-- `extract_body` specialised to an explicit anchor index:
`body = "\n".join(out).strip(); return body if body else None`. -/
def bodyAt (strings : List String) (i : Nat) : Option String :=
  if pyStrip (joinNl (takeBody (strings.drop (i + 1)))) = "" then none
  else some (pyStrip (joinNl (takeBody (strings.drop (i + 1)))))

/-- `extract_body(strings, title)`. -/
def extract_body (strings : List String) (title : Option String) : Option String :=
  match title with
  | some t =>
    if ¬ t = "" ∧ t ∈ strings then bodyAt strings (firstIdx strings t)
    else none
  | none => none

/-- Python `s.upper() == s`, over the ASCII fragment of `str.upper`. -/
def pyIsUpperEq (s : String) : Bool :=
  s.data.all (fun c => c.toUpper = c)

/-- Python `s.isdigit()` (ASCII digits). -/
def pyIsDigit (s : String) : Bool :=
  !(s.data = []) && s.data.all Char.isDigit

/-- The reversed scan of the tag fallback: skip stop markers, timestamp
matches, and entries failing the shape check; return the first survivor. -/
def scanRev : List String → List String
  | [] => []
  | s :: rest =>
    if s ∈ STOP_MARKERS ∨ ¬ (dtSearch s) = none then scanRev rest
    else if 2 ≤ s.data.length ∧ s.data.length ≤ 50 ∧ pyIsUpperEq s ∧ ¬ pyIsDigit s then
      [s]
    else scanRev rest

/-- The tag fallback window specialised to an explicit anchor index:
`reversed(strings[max(0, i - 10) : i])`. -/
def tagsAt (strings : List String) (i : Nat) : List String :=
  scanRev (pySlice strings (i - 10) i).reverse

/-- The positional fallback branch of `extract_tags`. -/
def tagFallback (strings : List String) (title : Option String) : List String :=
  match title with
  | some t =>
    if ¬ t = "" ∧ t ∈ strings then tagsAt strings (firstIdx strings t)
    else []
  | none => []

/-! ## Documents and article parsing

A fetched and parsed article page is abstracted to the three observations the
extractor makes of it: the `<title>` text, the flattened visible strings of the
main region, and the texts of the anchors matched by the tag CSS selectors. -/

structure Doc where
  titleTag : Option String
  strings : List String
  tagLinkTexts : List String

/-- `[s.strip() for s in main.stripped_strings if s and s.strip()]`. -/
def flattenDoc (doc : Doc) : List String :=
  doc.strings.filterMap (fun s =>
    if s = "" then none
    else if pyStrip s = "" then none
    else some (pyStrip s))

/-- `extract_tags(soup, strings, title)`: CSS-selected tag link texts,
non-empty, deduplicated in first-seen order; else the positional fallback. -/
def extract_tags (doc : Doc) (strings : List String) (title : Option String) :
    List String :=
  let tags := dedupFirst (doc.tagLinkTexts.filter (fun s => !(s = "")))
  if tags = [] then tagFallback strings title else tags

/-- An article record as emitted by `parse_article`. -/
structure Record where
  url : String
  title : Option String
  published_at : DateTime
  tags : List String
  body : Option String
deriving DecidableEq

/-- `parse_article(sess, url)` with the fetched document supplied explicitly;
`.error` models a propagated `ValueError` from `strptime`, `.ok none` the
dropped article. -/
def parse_article (doc : Doc) (url : String) : Except Unit (Option Record) :=
  let strings := flattenDoc doc
  let title := normalize_title doc.titleTag
  match pick_published_at strings title with
  | .error e => .error e
  | .ok none => .ok none
  | .ok (some dt) =>
    .ok (some ⟨url, title, dt, extract_tags doc strings title, extract_body strings title⟩)

/-! ## The crawl loop (scrape_articles) -/

/-- The crawl environment: for each listing page index the collected candidate
links (already made absolute), and for each article URL the fetched document. -/
structure CrawlEnv where
  pageLinks : Nat → List String
  docOf : String → Doc

/-- The crawl state, with two pure event traces: `fetched` records every URL
passed to `parse_article`, `pagesVisited` counts listing-page fetches. -/
structure CrawlState where
  seen : List String
  fetched : List String
  articles : List Record
  page : Nat
  pagesVisited : Nat
deriving DecidableEq

def initState : CrawlState := ⟨[], [], [], 0, 0⟩

/-- Python string `<`: lexicographic comparison of code points. -/
def strLtB : List Char → List Char → Bool
  | [], [] => false
  | [], _ :: _ => true
  | _ :: _, [] => false
  | a :: as, b :: bs =>
    if a.toNat < b.toNat then true
    else if b.toNat < a.toNat then false
    else strLtB as bs

/-- Ascending insertion into a sorted list. -/
def insertSorted (x : String) : List String → List String
  | [] => [x]
  | y :: ys =>
    if strLtB y.data x.data then y :: insertSorted x ys
    else x :: y :: ys

/-- Python `sorted` on strings (insertion sort; the claims below depend only
on the multiset of elements). -/
def sortLinks : List String → List String
  | [] => []
  | x :: xs => insertSorted x (sortLinks xs)

/-- The state update every processed link receives, before extraction is
attempted: `seen.add(url)`, and the article fetch recorded in the trace. -/
def markSeen (url : String) (st : CrawlState) : CrawlState :=
  ⟨insertStr url st.seen, st.fetched ++ [url], st.articles, st.page, st.pagesVisited⟩

/-- The retention test `cutoff is None or dt >= cutoff`. -/
def keepArticle (cutoff : Option DateTime) (dt : DateTime) : Bool :=
  match cutoff with
  | none => true
  | some c => DateTime.leB c dt

/-- The oldest-on-page update:
`dt if oldest_on_page is None else min(oldest_on_page, dt)`. -/
def oldestUpd (oldest : Option DateTime) (dt : DateTime) : Option DateTime :=
  some (match oldest with | none => dt | some o => pymin o dt)

/-- The inner `for url in sorted(new_links)` loop, threading the state and the
oldest-on-page minimum; a `ValueError` escaping `parse_article` aborts. -/
def processLinks (env : CrawlEnv) (cutoff : Option DateTime) :
    List String → CrawlState → Option DateTime →
    Except Unit (CrawlState × Option DateTime)
  | [], st, oldest => .ok (st, oldest)
  | url :: rest, st, oldest =>
    match parse_article (env.docOf url) url with
    | .error e => .error e
    | .ok none => processLinks env cutoff rest (markSeen url st) oldest
    | .ok (some item) =>
      processLinks env cutoff rest
        (if keepArticle cutoff item.published_at then
           ⟨(markSeen url st).seen, (markSeen url st).fetched,
            (markSeen url st).articles ++ [item], st.page, st.pagesVisited⟩
         else markSeen url st)
        (oldestUpd oldest item.published_at)

/-- The page-limit check `max_pages is not None and page >= max_pages`. -/
def atLimit (maxPages : Option Nat) (page : Nat) : Bool :=
  match maxPages with
  | some m => decide (m ≤ page)
  | none => false

/-- The listing-page fetch, recorded in the visit counter. -/
def pageStart (st : CrawlState) : CrawlState :=
  ⟨st.seen, st.fetched, st.articles, st.page, st.pagesVisited + 1⟩

/-- Link collection for the current page: the candidate links deduplicated
(a Python set), the already-seen ones removed, and the rest sorted. -/
def newLinksOf (env : CrawlEnv) (st : CrawlState) : List String :=
  sortLinks ((dedupFirst (env.pageLinks st.page)).filter (fun u => !(u ∈ st.seen)))

/-- The termination test `cutoff and oldest_on_page and oldest_on_page < cutoff`
(datetimes are always truthy, so truthiness is presence). -/
def cutoffCrossed (cutoff : Option DateTime) (oldest : Option DateTime) : Bool :=
  match cutoff, oldest with
  | some c, some o => DateTime.ltB o c
  | _, _ => false

/-- `page += 1`. -/
def nextPage (st : CrawlState) : CrawlState :=
  ⟨st.seen, st.fetched, st.articles, st.page + 1, st.pagesVisited⟩

/-- `scrape_articles`, fuel-indexed: `none` is an incomplete run (fuel ran
out), `some (.ok st)` a completed run, `some (.error e)` an aborted run. -/
def crawlLoop (env : CrawlEnv) (cutoff : Option DateTime) (maxPages : Option Nat) :
    Nat → CrawlState → Option (Except Unit CrawlState)
  | 0, _ => none
  | fuel + 1, st =>
    if atLimit maxPages st.page then some (.ok st)
    else if newLinksOf env st = [] then some (.ok (pageStart st))
    else
      match processLinks env cutoff (newLinksOf env st) (pageStart st) none with
      | .error e => some (.error e)
      | .ok (st2, oldest) =>
        if cutoffCrossed cutoff oldest then some (.ok st2)
        else crawlLoop env cutoff maxPages fuel (nextPage st2)

/-- Listing pages fetched by a completed run. -/
def visitedCount (r : Option (Except Unit CrawlState)) : Option Nat :=
  match r with
  | some (.ok st) => some st.pagesVisited
  | _ => none

/-! ## fetch_articles (the entry point) -/

def cfgMsg : String := "Must specify at least one of: days, since, or pages"

/-- Run the scrape and project the article list, mapping the three non-value
outcomes to distinct error strings. -/
def scrapeResult (env : CrawlEnv) (cutoff : Option DateTime) (maxPages : Option Nat)
    (fuel : Nat) : Except String (List Record) :=
  match crawlLoop env cutoff maxPages fuel initState with
  | some (.ok st) => .ok st.articles
  | some (.error _) => .error "ValueError"
  | none => .error "incomplete"

/-- `fetch_articles(days=…, since=…, pages=…)`: the configuration check and
cutoff computation.  `since` is abstracted to the parsed datetime and
`daysAgo n` stands for `datetime.now() - timedelta(days=n)`; the optional
output file is I/O outside the value-level model. -/
def fetch_articles_model (env : CrawlEnv) (days : Option Nat) (since : Option DateTime)
    (pages : Option Nat) (daysAgo : Nat → DateTime) (fuel : Nat) :
    Except String (List Record) :=
  if days = none ∧ since = none ∧ pages = none then .error cfgMsg
  else
    let cutoff : Option DateTime :=
      match since with
      | some s => some s
      | none => match days with | some n => some (daysAgo n) | none => none
    scrapeResult env cutoff pages fuel

/-! ## codex_labeler.py: batch generation -/

/-- A loaded article-record JSON object; the scraper emits every key, with
`title` and `body` possibly `null` (`none`). -/
structure PyArticle where
  url : String
  title : Option String
  published_at : Option String
  tags : List String
  body : Option String
deriving DecidableEq

structure BatchEntry where
  url : String
  title : Option String
  published_at : Option String
  tags : List String
  body : String
deriving DecidableEq

/-- One payload entry: `a.get("body", "")[:2000]` slices the string when the
`body` key holds a string, and raises `TypeError` (modelled `.error`) when the
key is present with value `None`, since `.get` then returns `None`. -/
def batchEntry (a : PyArticle) : Except Unit BatchEntry :=
  match a.body with
  | some s => .ok ⟨a.url, a.title, a.published_at, a.tags, pyTake s 2000⟩
  | none => .error ()

/-- `generate_batch`: the unlabeled subset, the batch, and its payload
entries (the surrounding file I/O is outside the value-level model). -/
def generate_batch_payload (articles : List PyArticle) (labeledUrls : List String)
    (batchSize : Nat) : Except Unit (List BatchEntry) :=
  ((articles.filter (fun a => !(a.url ∈ labeledUrls))).take batchSize).mapM batchEntry

/-! ## Spec-side definitions, for refinement comparisons -/

/-- The timestamp window exactly as the claim words it: a symmetric window of
15 entries on each side of the anchor, indices `i - 15` through `i + 15`
inclusive.  To be compared with `windowSearchAt`, whose upper slice bound
`i + 15` is exclusive. -/
def pick_published_at_specSym (strings : List String) (title : Option String) :
    Except Unit (Option DateTime) :=
  match title with
  | some t =>
    if ¬ t = "" ∧ t ∈ strings then
      pickFrom (searchList (pySlice strings (firstIdx strings t - 15)
        (min strings.length (firstIdx strings t + 15 + 1)))) strings
    else pickFrom none strings
  | none => pickFrom none strings

/-- The body entries as the claim words them: the entries truncated at the
first stop marker, with noise-string entries excluded.  To be compared with
the accumulation loop `takeBody`. -/
def bodyKeepSpec (l : List String) : List String :=
  (l.takeWhile (fun s => !(s ∈ STOP_MARKERS))).filter (fun s => !(s ∈ NOISE_STRINGS))

/-- Invariant carried through the crawl loop for the uniqueness claims. -/
def CrawlInv (st : CrawlState) : Prop :=
  st.seen.Nodup ∧ st.fetched.Nodup ∧ (st.articles.map Record.url).Nodup
    ∧ (∀ u ∈ st.fetched, u ∈ st.seen) ∧ (∀ r ∈ st.articles, r.url ∈ st.seen)

/-! ## Concrete fixtures for counterexamples and witnesses -/

/-- A flattened sequence with a timestamp at index 0, the title at index 20,
and a second timestamp at index 35 = 20 + 15: inside the symmetric window the
claim describes, outside the slice the code takes. -/
def exC2 : List String :=
  [("01/01/2020 - 00:00")] ++ List.replicate 19 ("x") ++ [("T")]
    ++ List.replicate 14 ("x") ++ [("15/03/2024 - 09:30")]

def c2020 : DateTime := ⟨2020, 1, 1, 0, 0⟩

def docA : Doc := ⟨none, [("02/02/2021 - 10:00")], []⟩

def docB : Doc := ⟨none, [("01/01/2000 - 10:00")], []⟩

def docC : Doc := ⟨none, [("02/02/2022 - 10:00")], []⟩

/-- A document with no timestamp pattern anywhere. -/
def doc3 : Doc := ⟨some ("T | 902.gr"), [("T"), ("hello")], []⟩

/-- One listing page with two articles: `a` published in 2021 (kept against
the 2020 cutoff) and `b` published in 2000 (discarded). -/
def envA : CrawlEnv :=
  ⟨fun n => if n = 0 then [("a"), ("b")] else [],
   fun u => if u = ("a") then docA else docB⟩

/-- Two listing pages with one fresh article each, both after the cutoff. -/
def envB : CrawlEnv :=
  ⟨fun n => if n = 0 then [("p0")] else if n = 1 then [("p1")] else [],
   fun u => if u = ("p0") then docA else docC⟩

/-- An environment whose listing pages are all empty. -/
def env0 : CrawlEnv := ⟨fun _ => [], fun _ => docA⟩

/-- An environment whose every article page lacks a timestamp. -/
def env3 : CrawlEnv := ⟨fun _ => [], fun _ => doc3⟩

def recA : Record := ⟨("a"), none, ⟨2021, 2, 2, 10, 0⟩, [], none⟩

def recB : Record := ⟨("b"), none, ⟨2000, 1, 1, 10, 0⟩, [], none⟩

def recP0 : Record := ⟨("p0"), none, ⟨2021, 2, 2, 10, 0⟩, [], none⟩

def recP1 : Record := ⟨("p1"), none, ⟨2022, 2, 2, 10, 0⟩, [], none⟩

/-- The completed state of the `envA` run with the 2020 cutoff. -/
def finalA : CrawlState := ⟨[("a"), ("b")], [("a"), ("b")], [recA], 0, 1⟩

/-- The completed state of the `envB` run with page limit 2. -/
def finalB : CrawlState := ⟨[("p0"), ("p1")], [("p0"), ("p1")], [recP0, recP1], 2, 2⟩

/-- An article record whose `body` key is present with value `null`, as the
scraper emits whenever `extract_body` returns `None`. -/
def artNull : PyArticle := ⟨("http://x"), some ("t"), some ("2024-03-15T09:30"), [], none⟩

def artStr : PyArticle := ⟨("http://y"), some ("t"), some ("2024-03-15T09:30"), [], some ("hello")⟩

def ex10 : List String := [("B"), ("T"), ("c"), ("T")]

def ex4 : List String :=
  [("T"), ("body1"), ("Facebook logo"), ("body2"), ("Δες ακόμα"), ("after")]

/-! ## Helper lemmas -/

theorem mem_pySlice {α : Type} {s : α} {l : List α} {a b : Nat}
    (h : s ∈ pySlice l a b) : s ∈ l :=
  List.Sublist.mem (List.mem_of_mem_drop h) (List.take_sublist b l)

theorem pySlice_getElem? {α : Type} (l : List α) (a b j : Nat) :
    (pySlice l a b)[j]? = if a + j < b then l[a + j]? else none := by
  unfold pySlice
  rw [List.getElem?_drop, List.getElem?_take]

theorem firstIdx_le {l : List String} {t : String} {i : Nat}
    (h : l[i]? = some t) : firstIdx l t ≤ i := by
  induction l generalizing i with
  | nil => simp at h
  | cons s rest ih =>
    by_cases hs : s = t
    · simp [firstIdx, hs]
    · cases i with
      | zero => simp at h; exact absurd h hs
      | succ i =>
        simp only [firstIdx, if_neg hs]
        have := ih (by simpa using h)
        omega

theorem firstIdx_get {l : List String} {t : String} (h : t ∈ l) :
    l[firstIdx l t]? = some t := by
  induction l with
  | nil => cases h
  | cons s rest ih =>
    by_cases hs : s = t
    · simp [firstIdx, hs]
    · have hr : t ∈ rest := by
        rcases List.mem_cons.mp h with he | hr
        · exact absurd he.symm hs
        · exact hr
      simp [firstIdx, hs, ih hr]

theorem firstIdx_min {l : List String} {t : String} {j : Nat}
    (h : j < firstIdx l t) : ¬ l[j]? = some t := by
  induction l generalizing j with
  | nil => simp
  | cons s rest ih =>
    by_cases hs : s = t
    · simp [firstIdx, hs] at h
    · cases j with
      | zero => intro hc; simp at hc; exact hs hc
      | succ j =>
        simp only [firstIdx, if_neg hs] at h
        simpa using ih (by omega)

theorem mem_insertStr {u v : String} {l : List String} :
    u ∈ insertStr v l ↔ u = v ∨ u ∈ l := by
  unfold insertStr
  by_cases h : v ∈ l
  · rw [if_pos h]
    constructor
    · exact fun hu => Or.inr hu
    · rintro (rfl | hu)
      · exact h
      · exact hu
  · rw [if_neg h]
    simp [List.mem_append, or_comm]

theorem insertStr_nodup {v : String} {l : List String} (h : l.Nodup) :
    (insertStr v l).Nodup := by
  unfold insertStr
  by_cases hm : v ∈ l
  · simpa [hm]
  · rw [if_neg hm, List.nodup_append]
    refine ⟨h, List.nodup_singleton v, ?_⟩
    intro x hx hxv
    rw [List.mem_singleton] at hxv
    exact hm (hxv ▸ hx)

theorem mem_dedupFirstAux {y : String} : ∀ {seen l : List String},
    y ∈ dedupFirstAux seen l → y ∈ l := by
  intro seen l
  induction l generalizing seen with
  | nil => intro h; simp [dedupFirstAux] at h
  | cons x xs ih =>
    intro h
    unfold dedupFirstAux at h
    by_cases hx : x ∈ seen
    · rw [if_pos hx] at h
      exact List.mem_cons_of_mem x (ih h)
    · rw [if_neg hx] at h
      rcases List.mem_cons.mp h with rfl | h2
      · exact List.mem_cons_self ..
      · exact List.mem_cons_of_mem x (ih h2)

theorem dedupFirstAux_not_mem_seen {y : String} : ∀ {seen l : List String},
    y ∈ dedupFirstAux seen l → ¬ y ∈ seen := by
  intro seen l
  induction l generalizing seen with
  | nil => intro h; simp [dedupFirstAux] at h
  | cons x xs ih =>
    intro h
    unfold dedupFirstAux at h
    by_cases hx : x ∈ seen
    · rw [if_pos hx] at h
      exact ih h
    · rw [if_neg hx] at h
      rcases List.mem_cons.mp h with rfl | h2
      · exact hx
      · intro hy
        exact ih h2 (List.mem_cons_of_mem x hy)

theorem dedupFirstAux_nodup : ∀ (seen l : List String), (dedupFirstAux seen l).Nodup := by
  intro seen l
  induction l generalizing seen with
  | nil => simp [dedupFirstAux]
  | cons x xs ih =>
    unfold dedupFirstAux
    by_cases hx : x ∈ seen
    · simpa [hx] using ih seen
    · rw [if_neg hx]
      refine List.nodup_cons.mpr ⟨?_, ih (x :: seen)⟩
      intro hmem
      exact dedupFirstAux_not_mem_seen hmem (List.mem_cons_self ..)

theorem dedupFirst_nodup (l : List String) : (dedupFirst l).Nodup :=
  dedupFirstAux_nodup [] l

theorem insertSorted_perm (x : String) :
    ∀ l : List String, (insertSorted x l).Perm (x :: l)
  | [] => List.Perm.refl _
  | y :: ys => by
    unfold insertSorted
    by_cases h : strLtB y.data x.data = true
    · rw [if_pos h]
      exact ((insertSorted_perm x ys).cons y).trans (List.Perm.swap x y ys)
    · rw [if_neg h]

theorem sortLinks_perm : ∀ l : List String, (sortLinks l).Perm l
  | [] => List.Perm.refl _
  | x :: xs => (insertSorted_perm x (sortLinks xs)).trans ((sortLinks_perm xs).cons x)

theorem searchList_eq_none_iff {l : List String} :
    searchList l = none ↔ ∀ s ∈ l, dtSearch s = none := by
  induction l with
  | nil => simp [searchList]
  | cons s rest ih =>
    unfold searchList
    cases h : dtSearch s with
    | some g =>
      constructor
      · intro hc; cases hc
      · intro hall
        exact absurd (hall s (List.mem_cons_self ..)) (by simp [h])
    | none =>
      rw [ih]
      constructor
      · intro hall s2 hs2
        rcases List.mem_cons.mp hs2 with rfl | h2
        · exact h
        · exact hall s2 h2
      · intro hall s2 hs2
        exact hall s2 (List.mem_cons_of_mem s hs2)

theorem searchList_some_exists {l : List String} {g : List Char × List Char}
    (h : searchList l = some g) : ∃ s ∈ l, ¬ dtSearch s = none := by
  by_contra hc
  push_neg at hc
  rw [searchList_eq_none_iff.mpr hc] at h
  cases h

theorem searchList_eq_findSome? : ∀ l : List String, searchList l = l.findSome? dtSearch
  | [] => rfl
  | s :: rest => by
    rw [List.findSome?_cons]
    unfold searchList
    cases dtSearch s with
    | some g => rfl
    | none => simpa using searchList_eq_findSome? rest

theorem parseOrError_ne_ok_none (g : List Char × List Char) :
    ¬ parseOrError g = .ok none := by
  unfold parseOrError
  cases strptimeDMYHM g.1 g.2 <;> simp

theorem takeBody_eq_bodyKeepSpec : ∀ l : List String, takeBody l = bodyKeepSpec l
  | [] => rfl
  | s :: rest => by
    by_cases h1 : s ∈ STOP_MARKERS
    · simp [takeBody, bodyKeepSpec, List.takeWhile_cons, h1]
    · by_cases h2 : s ∈ NOISE_STRINGS
      · simpa [takeBody, bodyKeepSpec, List.takeWhile_cons, List.filter_cons, h1, h2]
          using takeBody_eq_bodyKeepSpec rest
      · simpa [takeBody, bodyKeepSpec, List.takeWhile_cons, List.filter_cons, h1, h2]
          using takeBody_eq_bodyKeepSpec rest

theorem data_append (a b : String) : (a ++ b).data = a.data ++ b.data := rfl

theorem mk_data (s : String) : String.mk s.data = s := rfl

theorem data_ne_nil {s : String} (h : ¬ s = "") : s.data ≠ [] := by
  intro hd
  apply h
  cases s with
  | mk d => rw [show d = [] from hd]

theorem joinNl_cons_cons (s s2 : String) (rest : List String) :
    joinNl (s :: s2 :: rest) = s ++ "\n" ++ joinNl (s2 :: rest) := rfl

theorem dropWhile_head_false {p : Char → Bool} {l : List Char}
    (h : List.dropWhile p l = l) {c : Char} (hc : l.head? = some c) : p c = false := by
  rw [List.dropWhile_eq_self_iff] at h
  cases l with
  | nil => simp at hc
  | cons a as =>
    simp at hc
    subst hc
    simpa using h (by simp)

theorem stripChars_parts {l : List Char} (h : stripChars l = l) :
    List.dropWhile Char.isWhitespace l = l
    ∧ List.dropWhile Char.isWhitespace l.reverse = l.reverse := by
  unfold stripChars at h
  have hsub_d : (List.dropWhile Char.isWhitespace l).Sublist l :=
    List.dropWhile_sublist _
  have hsub_e :
      (List.dropWhile Char.isWhitespace (List.dropWhile Char.isWhitespace l).reverse).Sublist
        (List.dropWhile Char.isWhitespace l).reverse :=
    List.dropWhile_sublist _
  have hlen_e : (List.dropWhile Char.isWhitespace
      (List.dropWhile Char.isWhitespace l).reverse).length = l.length := by
    rw [← List.length_reverse (List.dropWhile Char.isWhitespace
      (List.dropWhile Char.isWhitespace l).reverse), h]
  have hle1 := hsub_e.length_le
  rw [List.length_reverse] at hle1
  have hle2 := hsub_d.length_le
  have he : List.dropWhile Char.isWhitespace (List.dropWhile Char.isWhitespace l).reverse =
      (List.dropWhile Char.isWhitespace l).reverse := by
    apply hsub_e.eq_of_length
    rw [List.length_reverse]
    omega
  have hd : List.dropWhile Char.isWhitespace l = l := by
    apply hsub_d.eq_of_length
    omega
  refine ⟨hd, ?_⟩
  rw [← hd]
  exact he

theorem strip_head_last {l : List Char} (h : stripChars l = l) :
    (∀ c, l.head? = some c → Char.isWhitespace c = false)
    ∧ (∀ c, l.getLast? = some c → Char.isWhitespace c = false) := by
  obtain ⟨h1, h2⟩ := stripChars_parts h
  refine ⟨fun c hc => dropWhile_head_false h1 hc, fun c hc => ?_⟩
  apply dropWhile_head_false h2
  rw [← List.getLast?_eq_head?_reverse]
  exact hc

theorem stripChars_eq_self {l : List Char}
    (h1 : ∀ c, l.head? = some c → Char.isWhitespace c = false)
    (h2 : ∀ c, l.getLast? = some c → Char.isWhitespace c = false) :
    stripChars l = l := by
  have d1 : List.dropWhile Char.isWhitespace l = l := by
    cases l with
    | nil => rfl
    | cons a as =>
      rw [List.dropWhile_cons, if_neg]
      simp [h1 a rfl]
  have d2 : List.dropWhile Char.isWhitespace l.reverse = l.reverse := by
    cases hrev : l.reverse with
    | nil => rfl
    | cons a as =>
      rw [List.dropWhile_cons, if_neg]
      have ha : l.getLast? = some a := by
        rw [List.getLast?_eq_head?_reverse, hrev]
        rfl
      simp [h2 a ha]
  unfold stripChars
  rw [d1, d2, List.reverse_reverse]

theorem joinNl_data_ne_nil : ∀ {out : List String}, out ≠ [] →
    (∀ s ∈ out, ¬ s = "") → (joinNl out).data ≠ []
  | [], h, _ => absurd rfl h
  | [s], _, hs => by
    have : ¬ s = "" := hs s (by simp)
    simpa [joinNl] using data_ne_nil this
  | s :: s2 :: rest, _, hs => by
    rw [joinNl_cons_cons, data_append, data_append]
    simp

theorem joinNl_head_not_ws {out : List String}
    (hall : ∀ s ∈ out, ¬ s = "" ∧ pyStrip s = s) :
    ∀ c, (joinNl out).data.head? = some c → Char.isWhitespace c = false := by
  cases out with
  | nil => intro c hc; simp [joinNl] at hc
  | cons s rest =>
    have hs := hall s (List.mem_cons_self ..)
    have hstrip : stripChars s.data = s.data := congrArg String.data hs.2
    have hhead := (strip_head_last hstrip).1
    cases rest with
    | nil => exact fun c hc => hhead c hc
    | cons s2 rest2 =>
      intro c hc
      rw [joinNl_cons_cons, data_append, data_append] at hc
      rw [List.append_assoc, List.singleton_append, List.head?_append] at hc
      cases hd : s.data.head? with
      | none =>
        exact absurd hd (by simpa using data_ne_nil hs.1)
      | some a =>
        rw [hd] at hc
        simp at hc
        exact hc ▸ hhead a hd
theorem joinNl_last_not_ws : ∀ {out : List String},
    (∀ s ∈ out, ¬ s = "" ∧ pyStrip s = s) →
    ∀ c, (joinNl out).data.getLast? = some c → Char.isWhitespace c = false
  | [], _, c, hc => by simp [joinNl] at hc
  | [s], hall, c, hc => by
    have hs := hall s (by simp)
    have hstrip : stripChars s.data = s.data := congrArg String.data hs.2
    exact (strip_head_last hstrip).2 c (by simpa [joinNl] using hc)
  | s :: s2 :: rest, hall, c, hc => by
    rw [joinNl_cons_cons, data_append, data_append, List.getLast?_append] at hc
    have hne : (joinNl (s2 :: rest)).data ≠ [] :=
      joinNl_data_ne_nil (by simp) (fun x hx => (hall x (List.mem_cons_of_mem s hx)).1)
    cases hj : (joinNl (s2 :: rest)).data.getLast? with
    | none =>
      exact absurd (List.getLast?_eq_none_iff.mp hj) hne
    | some x =>
      rw [hj] at hc
      simp at hc
      exact hc ▸ joinNl_last_not_ws
        (fun y hy => hall y (List.mem_cons_of_mem s hy)) x hj

theorem pyStrip_joinNl {out : List String}
    (hall : ∀ s ∈ out, ¬ s = "" ∧ pyStrip s = s) :
    pyStrip (joinNl out) = joinNl out := by
  unfold pyStrip
  rw [stripChars_eq_self (joinNl_head_not_ws hall) (joinNl_last_not_ws hall)]

theorem joinNl_ne_empty {out : List String} (hne : out ≠ [])
    (hs : ∀ s ∈ out, ¬ s = "") : ¬ joinNl out = "" := by
  intro h
  exact joinNl_data_ne_nil hne hs (congrArg String.data h)

theorem pickFrom_none_eq (strings : List String) :
    pickFrom none strings =
      match searchList strings with
      | some g => parseOrError g
      | none => .ok none := rfl

theorem pickFrom_some_eq (g : List Char × List Char) (strings : List String) :
    pickFrom (some g) strings = parseOrError g := rfl

theorem pick_published_at_some_eq (strings : List String) (t : String) :
    pick_published_at strings (some t) =
      if ¬ t = "" ∧ t ∈ strings then pickAt strings (firstIdx strings t)
      else pickFrom none strings := rfl

theorem pick_published_at_none_eq (strings : List String) :
    pick_published_at strings none = pickFrom none strings := rfl

theorem parse_article_def (doc : Doc) (url : String) :
    parse_article doc url =
      match pick_published_at (flattenDoc doc) (normalize_title doc.titleTag) with
      | .error e => .error e
      | .ok none => .ok none
      | .ok (some dt) =>
        .ok (some ⟨url, normalize_title doc.titleTag, dt,
          extract_tags doc (flattenDoc doc) (normalize_title doc.titleTag),
          extract_body (flattenDoc doc) (normalize_title doc.titleTag)⟩) := rfl

theorem pickFrom_none_ok_none_iff {strings : List String} :
    pickFrom none strings = .ok none ↔ ∀ s ∈ strings, dtSearch s = none := by
  rw [pickFrom_none_eq]
  cases h : searchList strings with
  | none => exact ⟨fun _ => searchList_eq_none_iff.mp h, fun _ => rfl⟩
  | some g =>
    refine ⟨fun hp => absurd hp (parseOrError_ne_ok_none g), fun hall => ?_⟩
    rw [searchList_eq_none_iff.mpr hall] at h
    cases h

theorem pick_ok_none_iff {strings : List String} {title : Option String} :
    pick_published_at strings title = .ok none ↔ ∀ s ∈ strings, dtSearch s = none := by
  cases title with
  | none =>
    rw [pick_published_at_none_eq]
    exact pickFrom_none_ok_none_iff
  | some t =>
    rw [pick_published_at_some_eq]
    by_cases hcond : ¬ t = "" ∧ t ∈ strings
    · rw [if_pos hcond]
      unfold pickAt
      cases hw : windowSearchAt strings (firstIdx strings t) with
      | none => exact pickFrom_none_ok_none_iff
      | some g =>
        rw [pickFrom_some_eq]
        unfold windowSearchAt at hw
        have hex : ∃ s ∈ strings, ¬ dtSearch s = none := by
          obtain ⟨s, hs, hm⟩ := searchList_some_exists hw
          exact ⟨s, mem_pySlice hs, hm⟩
        refine ⟨fun hp => absurd hp (parseOrError_ne_ok_none g), fun hall => ?_⟩
        obtain ⟨s, hs, hm⟩ := hex
        exact absurd (hall s hs) hm
    · rw [if_neg hcond]
      exact pickFrom_none_ok_none_iff

theorem parse_article_ok_none_iff {doc : Doc} {url : String} :
    parse_article doc url = .ok none ↔ ∀ s ∈ flattenDoc doc, dtSearch s = none := by
  rw [parse_article_def]
  cases hp : pick_published_at (flattenDoc doc) (normalize_title doc.titleTag) with
  | error e =>
    refine ⟨fun h => ?_, fun hall => ?_⟩
    · cases h
    · have := (@pick_ok_none_iff (flattenDoc doc) (normalize_title doc.titleTag)).mpr hall
      rw [hp] at this
      cases this
  | ok v =>
    cases v with
    | none => exact ⟨fun _ => pick_ok_none_iff.mp hp, fun _ => rfl⟩
    | some dt =>
      refine ⟨fun h => ?_, fun hall => ?_⟩
      · cases h
      · have := (@pick_ok_none_iff (flattenDoc doc) (normalize_title doc.titleTag)).mpr hall
        rw [hp] at this
        cases this

theorem parse_article_url {doc : Doc} {url : String} {rec : Record}
    (h : parse_article doc url = .ok (some rec)) : rec.url = url := by
  rw [parse_article_def] at h
  cases hp : pick_published_at (flattenDoc doc) (normalize_title doc.titleTag) with
  | error e =>
    rw [hp] at h
    cases h
  | ok v =>
    cases v with
    | none =>
      rw [hp] at h
      cases h
    | some dt =>
      rw [hp] at h
      simp only [Except.ok.injEq, Option.some.injEq] at h
      rw [← h]

theorem processLinks_nil_eq (env : CrawlEnv) (cutoff : Option DateTime)
    (st : CrawlState) (oldest : Option DateTime) :
    processLinks env cutoff [] st oldest = .ok (st, oldest) := rfl

theorem processLinks_cons_eq (env : CrawlEnv) (cutoff : Option DateTime)
    (url : String) (rest : List String) (st : CrawlState) (oldest : Option DateTime) :
    processLinks env cutoff (url :: rest) st oldest =
      match parse_article (env.docOf url) url with
      | .error e => .error e
      | .ok none => processLinks env cutoff rest (markSeen url st) oldest
      | .ok (some item) =>
        processLinks env cutoff rest
          (if keepArticle cutoff item.published_at then
             ⟨(markSeen url st).seen, (markSeen url st).fetched,
              (markSeen url st).articles ++ [item], st.page, st.pagesVisited⟩
           else markSeen url st)
          (oldestUpd oldest item.published_at) := rfl

theorem crawlLoop_zero_eq (env : CrawlEnv) (cutoff : Option DateTime)
    (maxPages : Option Nat) (st : CrawlState) :
    crawlLoop env cutoff maxPages 0 st = none := rfl

theorem crawlLoop_succ_eq (env : CrawlEnv) (cutoff : Option DateTime)
    (maxPages : Option Nat) (fuel : Nat) (st : CrawlState) :
    crawlLoop env cutoff maxPages (fuel + 1) st =
      (if atLimit maxPages st.page then some (.ok st)
       else if newLinksOf env st = [] then some (.ok (pageStart st))
       else
         match processLinks env cutoff (newLinksOf env st) (pageStart st) none with
         | .error e => some (.error e)
         | .ok (st2, oldest) =>
           if cutoffCrossed cutoff oldest then some (.ok st2)
           else crawlLoop env cutoff maxPages fuel (nextPage st2)) := rfl

theorem newLinksOf_nodup (env : CrawlEnv) (st : CrawlState) :
    (newLinksOf env st).Nodup :=
  ((sortLinks_perm _).nodup_iff).mpr (List.Nodup.filter _ (dedupFirst_nodup _))

theorem newLinksOf_not_seen {env : CrawlEnv} {st : CrawlState} {u : String}
    (h : u ∈ newLinksOf env st) : ¬ u ∈ st.seen := by
  unfold newLinksOf at h
  have h2 := (sortLinks_perm _).mem_iff.mp h
  have h3 := (List.mem_filter.mp h2).2
  simpa using h3

theorem processLinks_cutoff {env : CrawlEnv} {c : DateTime} :
    ∀ {links : List String} {st : CrawlState} {oldest : Option DateTime}
      {st2 : CrawlState} {o2 : Option DateTime},
    processLinks env (some c) links st oldest = .ok (st2, o2) →
    (∀ r ∈ st.articles, DateTime.leB c r.published_at = true) →
    ∀ r ∈ st2.articles, DateTime.leB c r.published_at = true := by
  intro links
  induction links with
  | nil =>
    intro st oldest st2 o2 h hinv
    rw [processLinks_nil_eq] at h
    simp only [Except.ok.injEq, Prod.mk.injEq] at h
    obtain ⟨rfl, rfl⟩ := h
    exact hinv
  | cons url rest ih =>
    intro st oldest st2 o2 h hinv
    rw [processLinks_cons_eq] at h
    split at h
    · cases h
    · exact ih h hinv
    · rename_i item heq
      refine ih h ?_
      by_cases hk : keepArticle (some c) item.published_at = true
      · rw [if_pos hk]
        intro r hr
        rcases List.mem_append.mp hr with hr1 | hr2
        · exact hinv r hr1
        · rw [List.mem_singleton] at hr2
          subst hr2
          exact hk
      · rw [if_neg hk]
        exact hinv

theorem processLinks_page {env : CrawlEnv} {cutoff : Option DateTime} :
    ∀ {links : List String} {st : CrawlState} {oldest : Option DateTime}
      {st2 : CrawlState} {o2 : Option DateTime},
    processLinks env cutoff links st oldest = .ok (st2, o2) →
    st2.page = st.page ∧ st2.pagesVisited = st.pagesVisited := by
  intro links
  induction links with
  | nil =>
    intro st oldest st2 o2 h
    rw [processLinks_nil_eq] at h
    simp only [Except.ok.injEq, Prod.mk.injEq] at h
    obtain ⟨rfl, rfl⟩ := h
    exact ⟨rfl, rfl⟩
  | cons url rest ih =>
    intro st oldest st2 o2 h
    rw [processLinks_cons_eq] at h
    split at h
    · cases h
    · have h2 := ih h
      exact h2
    · rename_i item heq
      have h2 := ih h
      by_cases hk : keepArticle cutoff item.published_at = true
      · rw [if_pos hk] at h2
        exact h2
      · rw [if_neg hk] at h2
        exact h2

theorem CrawlInv_markSeen {url : String} {st : CrawlState}
    (hu : ¬ url ∈ st.seen) (hinv : CrawlInv st) : CrawlInv (markSeen url st) := by
  obtain ⟨h1, h2, h3, h4, h5⟩ := hinv
  refine ⟨insertStr_nodup h1, ?_, h3, ?_, ?_⟩
  · show (st.fetched ++ [url]).Nodup
    refine List.nodup_append.mpr ⟨h2, List.nodup_singleton url, ?_⟩
    intro x hx hxs
    rw [List.mem_singleton] at hxs
    subst hxs
    exact hu (h4 x hx)
  · intro u hu2
    rcases List.mem_append.mp hu2 with hf | hs
    · exact mem_insertStr.mpr (Or.inr (h4 u hf))
    · rw [List.mem_singleton] at hs
      subst hs
      exact mem_insertStr.mpr (Or.inl rfl)
  · intro r hr
    exact mem_insertStr.mpr (Or.inr (h5 r hr))

theorem CrawlInv_append {url : String} {st : CrawlState} {item : Record}
    (hu : ¬ url ∈ st.seen) (hurl : item.url = url) (hinv : CrawlInv st) :
    CrawlInv ⟨(markSeen url st).seen, (markSeen url st).fetched,
      (markSeen url st).articles ++ [item], st.page, st.pagesVisited⟩ := by
  have hms := CrawlInv_markSeen hu hinv
  obtain ⟨h1, h2, h3, h4, h5⟩ := hms
  refine ⟨h1, h2, ?_, h4, ?_⟩
  · show (List.map Record.url ((markSeen url st).articles ++ [item])).Nodup
    rw [List.map_append, List.map_singleton]
    refine List.nodup_append.mpr ⟨h3, List.nodup_singleton _, ?_⟩
    intro x hx hxs
    rw [List.mem_singleton] at hxs
    subst hxs
    rw [hurl] at hx
    rcases List.mem_map.mp hx with ⟨r, hr, hru⟩
    exact hu (hru ▸ hinv.2.2.2.2 r hr)
  · intro r hr
    rcases List.mem_append.mp hr with hr1 | hr2
    · exact h5 r hr1
    · rw [List.mem_singleton] at hr2
      subst hr2
      rw [hurl]
      exact mem_insertStr.mpr (Or.inl rfl)

theorem processLinks_inv {env : CrawlEnv} {cutoff : Option DateTime} :
    ∀ {links : List String} {st : CrawlState} {oldest : Option DateTime}
      {st2 : CrawlState} {o2 : Option DateTime},
    processLinks env cutoff links st oldest = .ok (st2, o2) →
    links.Nodup → (∀ u ∈ links, ¬ u ∈ st.seen) → CrawlInv st → CrawlInv st2 := by
  intro links
  induction links with
  | nil =>
    intro st oldest st2 o2 h _ _ hinv
    rw [processLinks_nil_eq] at h
    simp only [Except.ok.injEq, Prod.mk.injEq] at h
    obtain ⟨rfl, rfl⟩ := h
    exact hinv
  | cons url rest ih =>
    intro st oldest st2 o2 h hnd hfresh hinv
    have hu : ¬ url ∈ st.seen := hfresh url (List.mem_cons_self ..)
    have hndr : rest.Nodup := (List.nodup_cons.mp hnd).2
    have hnotin : ¬ url ∈ rest := (List.nodup_cons.mp hnd).1
    have hfresh2 : ∀ u ∈ rest, ¬ u ∈ (markSeen url st).seen := by
      intro u hur
      show ¬ u ∈ insertStr url st.seen
      intro hmem
      rcases mem_insertStr.mp hmem with rfl | hs
      · exact hnotin hur
      · exact hfresh u (List.mem_cons_of_mem url hur) hs
    rw [processLinks_cons_eq] at h
    split at h
    · cases h
    · exact ih h hndr hfresh2 (CrawlInv_markSeen hu hinv)
    · rename_i item heq
      by_cases hk : keepArticle cutoff item.published_at = true
      · rw [if_pos hk] at h
        exact ih h hndr hfresh2 (CrawlInv_append hu (parse_article_url heq) hinv)
      · rw [if_neg hk] at h
        exact ih h hndr hfresh2 (CrawlInv_markSeen hu hinv)

theorem crawlLoop_cutoff {env : CrawlEnv} {c : DateTime} {maxPages : Option Nat} :
    ∀ {fuel : Nat} {st final : CrawlState},
    crawlLoop env (some c) maxPages fuel st = some (.ok final) →
    (∀ r ∈ st.articles, DateTime.leB c r.published_at = true) →
    ∀ r ∈ final.articles, DateTime.leB c r.published_at = true := by
  intro fuel
  induction fuel with
  | zero =>
    intro st final h hinv
    rw [crawlLoop_zero_eq] at h
    cases h
  | succ fuel ih =>
    intro st final h hinv
    rw [crawlLoop_succ_eq] at h
    split at h
    · simp only [Option.some.injEq, Except.ok.injEq] at h
      subst h
      exact hinv
    · split at h
      · simp only [Option.some.injEq, Except.ok.injEq] at h
        subst h
        exact hinv
      · split at h
        · simp at h
        · rename_i st2 oldest heq
          have hinv2 : ∀ r ∈ st2.articles, DateTime.leB c r.published_at = true :=
            processLinks_cutoff heq hinv
          split at h
          · simp only [Option.some.injEq, Except.ok.injEq] at h
            subst h
            exact hinv2
          · exact ih h hinv2

theorem crawlLoop_inv {env : CrawlEnv} {cutoff : Option DateTime} {maxPages : Option Nat} :
    ∀ {fuel : Nat} {st final : CrawlState},
    crawlLoop env cutoff maxPages fuel st = some (.ok final) →
    CrawlInv st → CrawlInv final := by
  intro fuel
  induction fuel with
  | zero =>
    intro st final h hinv
    rw [crawlLoop_zero_eq] at h
    cases h
  | succ fuel ih =>
    intro st final h hinv
    rw [crawlLoop_succ_eq] at h
    split at h
    · simp only [Option.some.injEq, Except.ok.injEq] at h
      subst h
      exact hinv
    · split at h
      · simp only [Option.some.injEq, Except.ok.injEq] at h
        subst h
        exact hinv
      · split at h
        · simp at h
        · rename_i st2 oldest heq
          have hinv2 : CrawlInv st2 :=
            processLinks_inv heq (newLinksOf_nodup env st)
              (fun u hu => newLinksOf_not_seen hu) hinv
          split at h
          · simp only [Option.some.injEq, Except.ok.injEq] at h
            subst h
            exact hinv2
          · exact ih h hinv2

theorem crawlLoop_pv_le {env : CrawlEnv} {cutoff : Option DateTime} {m : Nat} :
    ∀ {fuel : Nat} {st final : CrawlState},
    crawlLoop env cutoff (some m) fuel st = some (.ok final) →
    st.pagesVisited = st.page → st.page ≤ m → final.pagesVisited ≤ m := by
  intro fuel
  induction fuel with
  | zero =>
    intro st final h hpv hle
    rw [crawlLoop_zero_eq] at h
    cases h
  | succ fuel ih =>
    intro st final h hpv hle
    rw [crawlLoop_succ_eq] at h
    split at h
    · simp only [Option.some.injEq, Except.ok.injEq] at h
      subst h
      omega
    · rename_i hlim
      simp only [atLimit, decide_eq_true_eq] at hlim
      split at h
      · simp only [Option.some.injEq, Except.ok.injEq] at h
        subst h
        show st.pagesVisited + 1 ≤ m
        omega
      · split at h
        · simp at h
        · rename_i st2 oldest heq
          have e1 : st2.pagesVisited = st.pagesVisited + 1 := (processLinks_page heq).2
          have e2 : st2.page = st.page := (processLinks_page heq).1
          split at h
          · simp only [Option.some.injEq, Except.ok.injEq] at h
            subst h
            omega
          · refine ih h ?_ ?_
            · show st2.pagesVisited = st2.page + 1
              omega
            · show st2.page + 1 ≤ m
              omega

/-! ## Claim theorems -/

/-- Claim C1: in every completed run configured with a cutoff `c`, every record
in the output array has `published_at` at or after `c`; and when an article
parses to a timestamp strictly before `c`, processing its link discards the
record (the article list is unchanged) while still marking the URL seen,
recording the fetch, and folding the timestamp into the oldest-on-page
minimum. -/
theorem claim1_cutoff_filtering (env : CrawlEnv) (c : DateTime) (maxPages : Option Nat)
    (fuel : Nat) (final : CrawlState) (url : String) (rest : List String)
    (st : CrawlState) (oldest : Option DateTime) (item : Record) :
    (crawlLoop env (some c) maxPages fuel initState = some (.ok final) →
      ∀ r ∈ final.articles, DateTime.leB c r.published_at = true)
    ∧ (parse_article (env.docOf url) url = .ok (some item) →
       DateTime.ltB item.published_at c = true →
       processLinks env (some c) (url :: rest) st oldest =
         processLinks env (some c) rest (markSeen url st)
           (oldestUpd oldest item.published_at)) := by
  constructor
  · intro hrun
    exact crawlLoop_cutoff hrun (by intro r hr; cases hr)
  · intro hp hlt
    have hk : keepArticle (some c) item.published_at = false := by
      have he : DateTime.ltB item.published_at c
          = !(DateTime.leB c item.published_at) := rfl
      rw [he, Bool.not_eq_true'] at hlt
      simpa [keepArticle] using hlt
    rw [processLinks_cons_eq]
    split
    · rename_i e heq
      rw [hp] at heq
      cases heq
    · rename_i heq
      rw [hp] at heq
      cases heq
    · rename_i item2 heq
      rw [hp] at heq
      injection heq with h1
      injection h1 with h2
      subst h2
      simp [hk]

theorem claim1_cutoff_filtering_witness :
    DateTime.leB c2020 recA.published_at = true
    ∧ processLinks envA (some c2020) [("b")] ⟨[("a")], [("a")], [recA], 0, 1⟩
        (some ⟨2021, 2, 2, 10, 0⟩) =
      processLinks envA (some c2020) []
        (markSeen ("b") ⟨[("a")], [("a")], [recA], 0, 1⟩)
        (oldestUpd (some ⟨2021, 2, 2, 10, 0⟩) recB.published_at) := by
  constructor
  · exact (claim1_cutoff_filtering envA c2020 none 10 finalA ("b") []
      ⟨[("a")], [("a")], [recA], 0, 1⟩ (some ⟨2021, 2, 2, 10, 0⟩) recB).1
      (by decide) recA (by decide)
  · exact (claim1_cutoff_filtering envA c2020 none 10 finalA ("b") []
      ⟨[("a")], [("a")], [recA], 0, 1⟩ (some ⟨2021, 2, 2, 10, 0⟩) recB).2
      (by decide) (by decide)

/-- Claim C5, counterexample: with a page limit of 2 but a first listing page
that yields no links, the completed run visits exactly 1 listing page, not 2 —
so the page count is not independent of page contents. -/
theorem claim5_page_limit_counterexample :
    visitedCount (crawlLoop env0 none (some 2) 10 initState) = some 1
    ∧ ¬ visitedCount (crawlLoop env0 none (some 2) 10 initState) = some 2 :=
  ⟨by decide, by decide⟩

/-- Claim C5, amended: a completed run with page limit `m` visits at most `m`
listing pages, and the bound is attained: a run with page limit 2, a cutoff
configured, and fresh in-range links on the first two pages visits exactly 2
listing pages. -/
theorem claim5_page_limit_amended (env : CrawlEnv) (cutoff : Option DateTime)
    (m fuel : Nat) (final : CrawlState) :
    (crawlLoop env cutoff (some m) fuel initState = some (.ok final) →
      final.pagesVisited ≤ m)
    ∧ visitedCount (crawlLoop envB (some c2020) (some 2) 10 initState) = some 2 := by
  constructor
  · intro hrun
    exact crawlLoop_pv_le hrun rfl (Nat.zero_le m)
  · decide

theorem claim5_page_limit_amended_witness : finalB.pagesVisited ≤ 2 :=
  (claim5_page_limit_amended envB (some c2020) 2 10 finalB).1 (by decide)

/-- Claim C6: in every completed run, the seen-set holds each visited URL once
(no duplicates), no URL is fetched as an article more than once (the fetch
trace has no duplicates), and no two output records share a `url`. -/
theorem claim6_no_duplicates (env : CrawlEnv) (cutoff : Option DateTime)
    (maxPages : Option Nat) (fuel : Nat) (final : CrawlState)
    (hrun : crawlLoop env cutoff maxPages fuel initState = some (.ok final)) :
    final.seen.Nodup ∧ final.fetched.Nodup
      ∧ (final.articles.map Record.url).Nodup := by
  have hinv : CrawlInv final := by
    refine crawlLoop_inv hrun ⟨?_, ?_, ?_, ?_, ?_⟩ <;> simp [initState]
  exact ⟨hinv.1, hinv.2.1, hinv.2.2.1⟩

theorem claim6_no_duplicates_witness :
    finalA.seen.Nodup ∧ finalA.fetched.Nodup
      ∧ (finalA.articles.map Record.url).Nodup :=
  claim6_no_duplicates envA (some c2020) none 10 finalA (by decide)

theorem extract_body_some_eq (strings : List String) (t : String) :
    extract_body strings (some t) =
      if ¬ t = "" ∧ t ∈ strings then bodyAt strings (firstIdx strings t)
      else none := rfl

theorem tagFallback_some_eq (strings : List String) (t : String) :
    tagFallback strings (some t) =
      if ¬ t = "" ∧ t ∈ strings then tagsAt strings (firstIdx strings t)
      else [] := rfl

/-- Claim C2, counterexample: in `exC2` the title sits at index 20, one
timestamp at index 0 and another at index 35 = 20 + 15.  The symmetric window
the claim describes (15 entries on each side, inclusive) contains index 35 and
would yield 2024-03-15T09:30, but the code slice `strings[i-15 : i+15]`
excludes index 35, finds no window match, falls back to the full scan, and
returns the index-0 timestamp 2020-01-01T00:00. -/
theorem claim2_window_counterexample :
    pick_published_at exC2 (some ("T")) = .ok (some ⟨2020, 1, 1, 0, 0⟩)
    ∧ pick_published_at_specSym exC2 (some ("T")) = .ok (some ⟨2024, 3, 15, 9, 30⟩)
    ∧ ¬ pick_published_at exC2 (some ("T"))
        = pick_published_at_specSym exC2 (some ("T")) :=
  ⟨by decide, by decide, by decide⟩

/-- Claim C2, amended: when the non-empty normalized title occurs at first
index `i`, the searched window is the slice from `max(0, i - 15)` up to but
excluding `min(len, i + 15)` — 15 entries before the title through 14 entries
after it — and extraction parses the first match found in that window, falling
back to the full sequence; an entry containing `15/03/2024 - 09:30` yields the
timestamp 2024-03-15T09:30. -/
theorem claim2_window_amended (strings : List String) (t : String)
    (ht : ¬ t = "") (hmem : t ∈ strings) :
    (∀ j : Nat,
      (pySlice strings (firstIdx strings t - 15)
        (min strings.length (firstIdx strings t + 15)))[j]? =
      if (firstIdx strings t - 15) + j < min strings.length (firstIdx strings t + 15)
      then strings[(firstIdx strings t - 15) + j]?
      else none)
    ∧ pick_published_at strings (some t) =
        pickFrom ((pySlice strings (firstIdx strings t - 15)
          (min strings.length (firstIdx strings t + 15))).findSome? dtSearch) strings
    ∧ pick_published_at [("a"), ("x 15/03/2024 - 09:30 y")] (some ("a")) =
        .ok (some ⟨2024, 3, 15, 9, 30⟩) := by
  refine ⟨fun j => pySlice_getElem? strings _ _ j, ?_, by decide⟩
  rw [pick_published_at_some_eq, if_pos ⟨ht, hmem⟩]
  unfold pickAt windowSearchAt
  rw [searchList_eq_findSome?]

theorem claim2_window_amended_witness :
    (pySlice exC2 (firstIdx exC2 ("T") - 15)
        (min exC2.length (firstIdx exC2 ("T") + 15)))[14]? =
      (if (firstIdx exC2 ("T") - 15) + 14 < min exC2.length (firstIdx exC2 ("T") + 15)
       then exC2[(firstIdx exC2 ("T") - 15) + 14]?
       else none)
    ∧ pick_published_at exC2 (some ("T")) =
        pickFrom ((pySlice exC2 (firstIdx exC2 ("T") - 15)
          (min exC2.length (firstIdx exC2 ("T") + 15))).findSome? dtSearch) exC2 := by
  constructor
  · exact (claim2_window_amended exC2 ("T") (by decide) (by decide)).1 14
  · exact (claim2_window_amended exC2 ("T") (by decide) (by decide)).2.1

/-- Claim C3: extraction returns null exactly when no entry of the flattened
sequence matches the timestamp pattern; such an article is skipped by the link
loop without aborting (the crawl continues with the article list unchanged);
and a record is only ever created when some entry matched, so no record lacks
`published_at`. -/
theorem claim3_null_iff_no_match (env : CrawlEnv) (url : String)
    (cutoff : Option DateTime) (rest : List String) (st : CrawlState)
    (oldest : Option DateTime) :
    (parse_article (env.docOf url) url = .ok none ↔
      ∀ s ∈ flattenDoc (env.docOf url), dtSearch s = none)
    ∧ (parse_article (env.docOf url) url = .ok none →
        processLinks env cutoff (url :: rest) st oldest =
          processLinks env cutoff rest (markSeen url st) oldest)
    ∧ (∀ rec : Record, parse_article (env.docOf url) url = .ok (some rec) →
        ∃ s ∈ flattenDoc (env.docOf url), ¬ dtSearch s = none) := by
  refine ⟨parse_article_ok_none_iff, ?_, ?_⟩
  · intro hnull
    rw [processLinks_cons_eq]
    split
    · rename_i e heq
      rw [hnull] at heq
      cases heq
    · rfl
    · rename_i item heq
      rw [hnull] at heq
      cases heq
  · intro rec hrec
    by_contra hc
    push_neg at hc
    have := (@parse_article_ok_none_iff (env.docOf url) url).mpr hc
    rw [hrec] at this
    cases this

theorem claim3_null_iff_no_match_witness :
    parse_article (env3.docOf ("u")) ("u") = .ok none
    ∧ processLinks env3 none [("u")] initState none =
        processLinks env3 none [] (markSeen ("u") initState) none := by
  constructor
  · exact (claim3_null_iff_no_match env3 ("u") none [] initState none).1.mpr (by decide)
  · exact (claim3_null_iff_no_match env3 ("u") none [] initState none).2.1
      ((claim3_null_iff_no_match env3 ("u") none [] initState none).1.mpr (by decide))

/-- Claim C4: over a flattened sequence (entries non-empty and stripped), the
body is absent when the title does not occur; when the non-empty title occurs,
the body is the newline-join of the entries strictly after its first position,
truncated at the first stop marker (marker and everything after it excluded)
and with noise-string entries excluded — and it is absent, not the empty
string, when no entries remain. -/
theorem claim4_body_extraction (strings : List String) (t : String)
    (hflat : ∀ s ∈ strings, ¬ s = "" ∧ pyStrip s = s) :
    (¬ t ∈ strings → extract_body strings (some t) = none)
    ∧ (¬ t = "" → t ∈ strings →
        extract_body strings (some t) =
          if bodyKeepSpec (strings.drop (firstIdx strings t + 1)) = [] then none
          else some (joinNl (bodyKeepSpec (strings.drop (firstIdx strings t + 1))))) := by
  constructor
  · intro hnot
    rw [extract_body_some_eq, if_neg]
    intro hcond
    exact hnot hcond.2
  · intro ht hmem
    rw [extract_body_some_eq, if_pos ⟨ht, hmem⟩]
    unfold bodyAt
    rw [takeBody_eq_bodyKeepSpec]
    have hsub : ∀ s ∈ bodyKeepSpec (strings.drop (firstIdx strings t + 1)),
        s ∈ strings := by
      intro s hs
      unfold bodyKeepSpec at hs
      have h1 := List.mem_of_mem_filter hs
      have h2 := List.Sublist.mem h1 (List.takeWhile_sublist _)
      exact List.mem_of_mem_drop h2
    have hall : ∀ s ∈ bodyKeepSpec (strings.drop (firstIdx strings t + 1)),
        ¬ s = "" ∧ pyStrip s = s := fun s hs => hflat s (hsub s hs)
    by_cases hempty : bodyKeepSpec (strings.drop (firstIdx strings t + 1)) = []
    · rw [hempty]
      decide
    · rw [if_neg hempty, pyStrip_joinNl hall,
        if_neg (joinNl_ne_empty hempty (fun s hs => (hall s hs).1))]

theorem claim4_body_extraction_witness :
    extract_body ex4 (some ("T")) = some ("body1\nbody2") := by
  have h := (claim4_body_extraction ex4 ("T") (by decide)).2 (by decide) (by decide)
  exact h.trans (by decide)

theorem normalize_title_some_eq (s : String) :
    normalize_title (some s) =
      if s = "" then none
      else if List.isSuffixOf siteSuffix.data (pyStrip s).data then
        some (pyStrip (strDropRight (pyStrip s) siteSuffix.data.length))
      else some (pyStrip s) := rfl

theorem scrapeResult_ne_cfgMsg (env : CrawlEnv) (cutoff : Option DateTime)
    (maxPages : Option Nat) (fuel : Nat) :
    ¬ scrapeResult env cutoff maxPages fuel = .error cfgMsg := by
  unfold scrapeResult
  cases crawlLoop env cutoff maxPages fuel initState with
  | none =>
    intro h
    injection h with h2
    exact absurd h2 (by decide)
  | some r =>
    cases r with
    | ok st => intro h; cases h
    | error e =>
      intro h
      injection h with h2
      exact absurd h2 (by decide)

/-- Claim C7, counterexample: a title that does not end with the site suffix
but carries surrounding whitespace is not returned unchanged — normalization
strips the whitespace. -/
theorem claim7_normalize_counterexample :
    normalize_title (some (" Workers strike ")) = some ("Workers strike")
    ∧ ¬ normalize_title (some (" Workers strike ")) = some (" Workers strike ") :=
  ⟨by decide, by decide⟩

/-- Claim C7, amended: the suffix example holds; and a non-empty title whose
stripped form does not end with the suffix normalizes to the
whitespace-stripped title — so a title with no surrounding whitespace and no
suffix is returned unchanged. -/
theorem claim7_normalize_amended (s : String) (hne : ¬ s = "")
    (hfix : ¬ List.isSuffixOf siteSuffix.data (pyStrip s).data = true) :
    normalize_title (some ("Workers strike | 902.gr")) = some ("Workers strike")
    ∧ normalize_title (some s) = some (pyStrip s)
    ∧ (pyStrip s = s → normalize_title (some s) = some s) := by
  refine ⟨by decide, ?_, ?_⟩
  · rw [normalize_title_some_eq, if_neg hne, if_neg hfix]
  · intro hss
    rw [normalize_title_some_eq, if_neg hne, if_neg hfix, hss]

theorem claim7_normalize_amended_witness :
    normalize_title (some ("Workers strike")) = some ("Workers strike") :=
  (claim7_normalize_amended ("Workers strike") (by decide) (by decide)).2.2 (by decide)

/-- Claim C8, counterexample: supplying both a day count and a page count is
accepted — no configuration error — and the run is then bounded by both a
cutoff and a page limit at once, so a run is not bounded by exactly one of the
three options. -/
theorem claim8_config_counterexample :
    fetch_articles_model env0 (some 7) none (some 3) (fun _ => c2020) 10 = .ok []
    ∧ fetch_articles_model env0 (some 7) none (some 3) (fun _ => c2020) 10 =
        scrapeResult env0 (some c2020) (some 3) 10 :=
  ⟨by decide, by decide⟩

/-- Claim C8, amended: invocation is rejected with the configuration error
exactly when none of a day count, a since-date, or a page count is supplied;
the rejection is independent of the environment (no network activity); at
least one bound is required and several may combine, a since-date taking
precedence over a day count. -/
theorem claim8_config_amended (env : CrawlEnv) (days : Option Nat)
    (since : Option DateTime) (pages : Option Nat) (daysAgo : Nat → DateTime)
    (fuel : Nat) :
    (fetch_articles_model env days since pages daysAgo fuel = .error cfgMsg ↔
      days = none ∧ since = none ∧ pages = none)
    ∧ (days = none → since = none → pages = none →
        ∀ (env2 : CrawlEnv) (daysAgo2 : Nat → DateTime) (fuel2 : Nat),
          fetch_articles_model env2 days since pages daysAgo2 fuel2 = .error cfgMsg)
    ∧ (∀ (d : Nat) (sdt : DateTime),
        fetch_articles_model env (some d) (some sdt) pages daysAgo fuel =
          scrapeResult env (some sdt) pages fuel) := by
  refine ⟨⟨?_, ?_⟩, ?_, ?_⟩
  · intro h
    by_contra hc
    unfold fetch_articles_model at h
    rw [if_neg hc] at h
    exact scrapeResult_ne_cfgMsg env _ pages fuel h
  · rintro ⟨rfl, rfl, rfl⟩
    rfl
  · rintro rfl rfl rfl env2 daysAgo2 fuel2
    rfl
  · intro d sdt
    rfl

theorem claim8_config_amended_witness :
    fetch_articles_model env0 none none none (fun _ => c2020) 0 = .error cfgMsg :=
  (claim8_config_amended env0 none none none (fun _ => c2020) 0).2.1
    rfl rfl rfl env0 (fun _ => c2020) 0

/-- Claim C9 / code bug: the scraper emits records whose `body` key is `null`
(for example `recA`), and on such a record `a.get("body", "")` returns `None`,
so `None[:2000]` raises `TypeError` and batch generation fails instead of
emitting a truncated body.  For records whose body is a string, generation
succeeds and the payload body is the body truncated to at most 2000 code
points. -/
theorem claim9_truncation_code_bug :
    generate_batch_payload [artNull] [] 5 = .error ()
    ∧ recA.body = none
    ∧ generate_batch_payload [artStr] [] 5 =
        .ok [⟨("http://y"), some ("t"), some ("2024-03-15T09:30"), [], ("hello")⟩]
    ∧ (pyTake (String.mk (List.replicate 2500 ('a'))) 2000).data.length = 2000 := by
  refine ⟨by decide, by decide, by decide, ?_⟩
  show (List.take 2000 (List.replicate 2500 ('a'))).length = 2000
  rw [List.length_take, List.length_replicate]
  decide

/-- Claim C10: when the non-empty normalized title occurs at two positions of
the flattened sequence, every positional heuristic anchors at the first
(lowest-index) occurrence: the anchor is at or before both positions, the
entry there is the title, no earlier entry is the title, and the timestamp
window search, the body start, and the tag-fallback window are all computed at
that anchor. -/
theorem claim10_first_occurrence_anchor (strings : List String) (t : String)
    (i1 i2 : Nat) (ht : ¬ t = "") (h12 : i1 < i2)
    (h1 : strings[i1]? = some t) (h2 : strings[i2]? = some t) :
    firstIdx strings t ≤ i1
    ∧ firstIdx strings t < i2
    ∧ strings[firstIdx strings t]? = some t
    ∧ (∀ j, j < firstIdx strings t → ¬ strings[j]? = some t)
    ∧ pick_published_at strings (some t) = pickAt strings (firstIdx strings t)
    ∧ extract_body strings (some t) = bodyAt strings (firstIdx strings t)
    ∧ tagFallback strings (some t) = tagsAt strings (firstIdx strings t) := by
  have hmem : t ∈ strings := List.get?_mem (by rw [List.get?_eq_getElem?]; exact h1)
  have hle : firstIdx strings t ≤ i1 := firstIdx_le h1
  have hle2 : firstIdx strings t ≤ i2 := firstIdx_le h2
  refine ⟨hle, by omega, firstIdx_get hmem, fun j hj => firstIdx_min hj, ?_, ?_, ?_⟩
  · rw [pick_published_at_some_eq, if_pos ⟨ht, hmem⟩]
  · rw [extract_body_some_eq, if_pos ⟨ht, hmem⟩]
  · rw [tagFallback_some_eq, if_pos ⟨ht, hmem⟩]

theorem claim10_first_occurrence_anchor_witness :
    firstIdx ex10 ("T") ≤ 1
    ∧ firstIdx ex10 ("T") < 3
    ∧ ex10[firstIdx ex10 ("T")]? = some ("T")
    ∧ ¬ ex10[0]? = some ("T")
    ∧ pick_published_at ex10 (some ("T")) = pickAt ex10 (firstIdx ex10 ("T"))
    ∧ extract_body ex10 (some ("T")) = bodyAt ex10 (firstIdx ex10 ("T"))
    ∧ tagFallback ex10 (some ("T")) = tagsAt ex10 (firstIdx ex10 ("T")) := by
  have h := claim10_first_occurrence_anchor ex10 ("T") 1 3 (by decide) (by decide)
    (by decide) (by decide)
  exact ⟨h.1, h.2.1, h.2.2.1, h.2.2.2.1 0 (by decide), h.2.2.2.2.1,
    h.2.2.2.2.2.1, h.2.2.2.2.2.2⟩

end LUC